import Mathlib

/-!
Verification of the core data-processing logic of `tcga_rppa_sig`
(`tcga_rppa_sig/tcga_rppa_sig.py`): sample-id normalization, the RPPA and
signature loaders, the sample join, and the correlation-series builder.

Modelling conventions (shallow embedding of the Python source):
* Python strings are `List Char` (`Str`).
* Python dicts are association lists with unique-key-preserving insertion
  (`dinsert` overwrites in place, preserving insertion order, and appends new
  keys at the end — exactly Python's dict update/insert order semantics);
  `dget` is dict lookup.
* A parsed numeric cell is `Option ℚ` (`none` = the `float(...)` call failed,
  i.e. the Python code stored `None`).
* `exit_with_error(..., EXIT_BAD_INPUT)` is `Except.error Err.BadInput`;
  an unguarded dict indexing miss (Python `KeyError`) is `Err.KeyError`;
  `min`/`max` of an empty list (Python `ValueError`) is `Err.ValueError`.
-/

set_option autoImplicit false

/-- Fatal outcomes of a run: `BadInput` models `exit_with_error(_, EXIT_BAD_INPUT)`;
`KeyError` and `ValueError` model the corresponding unhandled Python exceptions. -/
inductive Err where
  | BadInput
  | KeyError
  | ValueError
deriving DecidableEq, Repr

/-- Python strings, as character lists. -/
abbrev Str := List Char

section Dict

variable {α : Type} {β : Type} [DecidableEq α]

/-- Dict lookup `m[k]` (as an `Option`): first (= unique) matching key. -/
def dget : List (α × β) → α → Option β
  | [], _ => none
  | (k, v) :: rest, a => if a = k then some v else dget rest a

/-- Dict assignment `m[k] = v`: overwrite in place if the key is present,
append at the end otherwise (Python dict insertion-order semantics). -/
def dinsert : List (α × β) → α → β → List (α × β)
  | [], k, v => [(k, v)]
  | (k', v') :: rest, k, v =>
      if k = k' then (k, v) :: rest else (k', v') :: dinsert rest k v

theorem dget_nil (a : α) : dget ([] : List (α × β)) a = none := rfl

theorem dget_dinsert (m : List (α × β)) (k a : α) (v : β) :
    dget (dinsert m k v) a = if a = k then some v else dget m a := by
  induction m with
  | nil => simp [dinsert, dget]
  | cons hd tl ih =>
    obtain ⟨k', v'⟩ := hd
    by_cases hk : k = k'
    · subst hk
      by_cases ha : a = k <;> simp [dinsert, dget, ha]
    · by_cases ha : a = k'
      · subst ha
        simp [dinsert, hk, dget]
        rw [if_neg (fun h => hk h.symm)]
      · simp [dinsert, hk, dget, ha, ih]

theorem dget_dinsert_self (m : List (α × β)) (k : α) (v : β) :
    dget (dinsert m k v) k = some v := by
  simp [dget_dinsert]

theorem dget_dinsert_ne (m : List (α × β)) (k a : α) (v : β) (h : a ≠ k) :
    dget (dinsert m k v) a = dget m a := by
  simp [dget_dinsert, h]

end Dict

/-! ### Identifier normalization (§ the two `parse_*_sample_id` functions) -/

/-- `parse_rppa_sample_id`: keep the first 12 characters of the barcode, or
exit with `EXIT_BAD_INPUT` when the barcode is shorter than 12 characters. -/
def parse_rppa_sample_id (sample_id : Str) : Except Err Str :=
  if 12 ≤ sample_id.length then .ok (sample_id.take 12)
  else .error .BadInput

/-- The fixed prefix `'TCGA'`. -/
def tcga : Str := ['T', 'C', 'G', 'A']

/-- Character-wise embedding of Python `str.replace('.', '-')`. -/
def dotToDash (c : Char) : Char := if c = '.' then '-' else c

/-- `parse_sig_sample_id`: when the id starts with `TCGA` and is exactly 12
characters long, replace every period with a hyphen; otherwise return the id
unchanged. -/
def parse_sig_sample_id (sample_id : Str) : Str :=
  if sample_id.take 4 = tcga ∧ sample_id.length = 12 then
    sample_id.map dotToDash
  else sample_id

theorem dotToDash_idem (c : Char) : dotToDash (dotToDash c) = dotToDash c := by
  by_cases h : c = '.' <;> simp [dotToDash, h]

theorem dotToDash_ne_dot (c : Char) : dotToDash c ≠ '.' := by
  by_cases h : c = '.' <;> simp [dotToDash, h]

theorem map_dotToDash_tcga : tcga.map dotToDash = tcga := by decide

theorem take_map_dotToDash_tcga (s : Str) (h : s.take 4 = tcga) :
    (s.map dotToDash).take 4 = tcga := by
  rw [← List.map_take, h, map_dotToDash_tcga]

/-- Claim C3: for every barcode of length at least 12, `parse_rppa_sample_id`
returns exactly the first 12 characters; for every shorter barcode it fails
with `BadInput`. -/
theorem parse_rppa_sample_id_spec (s : Str) :
    (12 ≤ s.length → parse_rppa_sample_id s = .ok (s.take 12)) ∧
    (s.length < 12 → parse_rppa_sample_id s = .error .BadInput) := by
  constructor
  · intro h; simp [parse_rppa_sample_id, h]
  · intro h; simp [parse_rppa_sample_id, Nat.not_le.mpr h]

theorem parse_rppa_sample_id_spec_witness :
    parse_rppa_sample_id ("TCGA-AO-A1KP-01A-21-A17I-20".toList)
      = .ok ("TCGA-AO-A1KP".toList) ∧
    parse_rppa_sample_id ("TCGA-AO".toList) = .error .BadInput := by
  constructor
  · have h := (parse_rppa_sample_id_spec ("TCGA-AO-A1KP-01A-21-A17I-20".toList)).1
      (by decide)
    rw [h]
    have ht : ("TCGA-AO-A1KP-01A-21-A17I-20".toList).take 12 = "TCGA-AO-A1KP".toList := by
      decide
    rw [ht]
  · exact (parse_rppa_sample_id_spec ("TCGA-AO".toList)).2 (by decide)

/-- Claim C4: `parse_sig_sample_id` replaces every period with a hyphen on ids
that start with `TCGA` and have length exactly 12, returns every other id
unchanged, and is idempotent. -/
theorem parse_sig_sample_id_spec (s : Str) :
    (s.take 4 = tcga ∧ s.length = 12 → parse_sig_sample_id s = s.map dotToDash) ∧
    (¬(s.take 4 = tcga ∧ s.length = 12) → parse_sig_sample_id s = s) ∧
    parse_sig_sample_id (parse_sig_sample_id s) = parse_sig_sample_id s := by
  refine ⟨fun h => by simp [parse_sig_sample_id, h], fun h => by
    simp only [parse_sig_sample_id, if_neg h], ?_⟩
  by_cases h : s.take 4 = tcga ∧ s.length = 12
  · have h1 : parse_sig_sample_id s = s.map dotToDash := by
      simp [parse_sig_sample_id, h]
    have h2 : (s.map dotToDash).take 4 = tcga := take_map_dotToDash_tcga s h.1
    have h3 : (s.map dotToDash).length = 12 := by
      rw [List.length_map]; exact h.2
    have h4 : (s.map dotToDash).map dotToDash = s.map dotToDash := by
      rw [List.map_map]
      exact List.map_congr_left (fun c _ => dotToDash_idem c)
    rw [h1]
    simp [parse_sig_sample_id, h2, h3, h4]
  · have h1 : parse_sig_sample_id s = s := by
      simp only [parse_sig_sample_id, if_neg h]
    rw [h1, h1]

theorem parse_sig_sample_id_spec_witness :
    parse_sig_sample_id ("TCGA.OR.A5J1".toList) = "TCGA-OR-A5J1".toList ∧
    parse_sig_sample_id ("NotTCGA-1".toList) = "NotTCGA-1".toList := by
  constructor
  · have h := (parse_sig_sample_id_spec ("TCGA.OR.A5J1".toList)).1 (by decide)
    rw [h]; decide
  · exact (parse_sig_sample_id_spec ("NotTCGA-1".toList)).2.1 (by decide)

/-! ### Signature loader (`read_sigs`) -/

/-- One data row of the tab-delimited signature file: the raw
`Tumor_Sample_Barcode`, `Signature`, `Association` fields, and the result of
`float(row['Contribution'])` (`none` when that parse failed). -/
structure SigRow where
  barcode : Str
  signature : Str
  association : Str
  contribution : Option ℚ
deriving DecidableEq, Repr

/-- `sample_id -> signature -> value` inner map. -/
abbrev SigValMap := List (Str × Option ℚ)

/-- The per-sample map built by `read_sigs`: `sample_id -> signature -> value`. -/
abbrev SigMap := List (Str × SigValMap)

/-- The `signature -> association` side table. -/
abbrev AssocMap := List (Str × Str)

/-- `if this_sample not in results: results[this_sample] = {}`. -/
def ensure_sample (results : SigMap) (s : Str) : SigMap :=
  if dget results s = none then dinsert results s [] else results

/-- The composite insertion a non-duplicate signature row performs. -/
def sig_insert (results : SigMap) (s g : Str) (c : Option ℚ) : SigMap :=
  let results1 := ensure_sample results s
  let smap := (dget results1 s).getD []
  dinsert results1 s (dinsert smap g c)

/-- `results[this_sample][this_signature]` seen from the outside:
`none` when either the sample or the signature key is absent. -/
def lookup2 (m : SigMap) (s g : Str) : Option (Option ℚ) :=
  dget ((dget m s).getD []) g

/-- The row loop of `read_sigs`, threading the association table and the
per-sample map; a duplicate `(sample, signature)` pair exits with
`EXIT_BAD_INPUT`. -/
def read_sigs_rows : AssocMap × SigMap → List SigRow → Except Err (AssocMap × SigMap)
  | st, [] => .ok st
  | (assoc, results), row :: rest =>
      let this_sample := parse_sig_sample_id row.barcode
      let results1 := ensure_sample results this_sample
      let assoc1 := if dget assoc row.signature = none then
                      dinsert assoc row.signature row.association
                    else assoc
      let smap := (dget results1 this_sample).getD []
      if dget smap row.signature = none then
        read_sigs_rows
          (assoc1, dinsert results1 this_sample (dinsert smap row.signature row.contribution))
          rest
      else .error .BadInput

/-- `read_sigs`, starting from empty tables. -/
def read_sigs (rows : List SigRow) : Except Err (AssocMap × SigMap) :=
  read_sigs_rows ([], []) rows

/-- The normalized `(sample, signature)` key of a row. -/
def sigKey (row : SigRow) : Str × Str := (parse_sig_sample_id row.barcode, row.signature)

theorem ensure_sample_get_self (results : SigMap) (s : Str) :
    dget (ensure_sample results s) s = some ((dget results s).getD []) := by
  unfold ensure_sample
  cases h : dget results s with
  | none => simp [h, dget_dinsert_self]
  | some m => simp [h]

theorem ensure_sample_get_ne (results : SigMap) (s s' : Str) (h : s' ≠ s) :
    dget (ensure_sample results s) s' = dget results s' := by
  unfold ensure_sample
  cases hg : dget results s with
  | none => simp [dget_dinsert_ne _ _ _ _ h]
  | some m => simp

theorem lookup2_ensure (results : SigMap) (s g : Str) :
    lookup2 (ensure_sample results s) s g = lookup2 results s g := by
  unfold lookup2
  rw [ensure_sample_get_self]
  simp

theorem lookup2_sig_insert (results : SigMap) (s₀ g₀ : Str) (c : Option ℚ)
    (s g : Str) :
    lookup2 (sig_insert results s₀ g₀ c) s g =
      if s = s₀ ∧ g = g₀ then some c else lookup2 results s g := by
  simp only [sig_insert, lookup2, ensure_sample_get_self, Option.getD_some]
  by_cases hs : s = s₀
  · subst hs
    rw [dget_dinsert_self]
    simp only [Option.getD_some, dget_dinsert]
    by_cases hg : g = g₀ <;> simp [hg]
  · rw [dget_dinsert_ne _ _ _ _ hs, ensure_sample_get_ne _ _ _ hs]
    simp [hs]

theorem read_sigs_rows_cons (assoc : AssocMap) (results : SigMap) (row : SigRow)
    (rest : List SigRow) :
    read_sigs_rows (assoc, results) (row :: rest) =
      if lookup2 results (sigKey row).1 (sigKey row).2 = none then
        read_sigs_rows
          ((if dget assoc row.signature = none then
              dinsert assoc row.signature row.association
            else assoc),
            sig_insert results (sigKey row).1 (sigKey row).2 row.contribution)
          rest
      else .error .BadInput := by
  show (let this_sample := parse_sig_sample_id row.barcode;
        let results1 := ensure_sample results this_sample;
        let assoc1 := if dget assoc row.signature = none then
                        dinsert assoc row.signature row.association
                      else assoc;
        let smap := (dget results1 this_sample).getD []
        if dget smap row.signature = none then
          read_sigs_rows
            (assoc1, dinsert results1 this_sample (dinsert smap row.signature row.contribution))
            rest
        else .error .BadInput) = _
  simp only [sigKey, sig_insert, lookup2]
  rw [ensure_sample_get_self]
  simp only [Option.getD_some]

/-- A successful run leaves every key not named by any remaining row unchanged. -/
theorem read_sigs_rows_preserve (rows : List SigRow) :
    ∀ assoc results assoc2 results2 s g,
      read_sigs_rows (assoc, results) rows = .ok (assoc2, results2) →
      (∀ r ∈ rows, sigKey r ≠ (s, g)) →
      lookup2 results2 s g = lookup2 results s g := by
  induction rows with
  | nil =>
    intro assoc results assoc2 results2 s g hrun _
    simp only [read_sigs_rows] at hrun
    cases hrun
    rfl
  | cons row rest ih =>
    intro assoc results assoc2 results2 s g hrun hkeys
    rw [read_sigs_rows_cons] at hrun
    by_cases hdup : lookup2 results (sigKey row).1 (sigKey row).2 = none
    · rw [if_pos hdup] at hrun
      have hkey : sigKey row ≠ (s, g) := hkeys row (List.mem_cons_self row rest)
      have h2 := ih _ _ _ _ s g hrun (fun r hr => hkeys r (List.mem_cons_of_mem row hr))
      rw [h2, lookup2_sig_insert]
      rw [if_neg]
      intro ⟨h3, h4⟩
      exact hkey (by rw [h3, h4])
    · rw [if_neg hdup] at hrun
      cases hrun

/-- With pairwise distinct keys that avoid the accumulator, the loop succeeds
and records each row's contribution. -/
theorem read_sigs_rows_ok (rows : List SigRow) :
    ∀ assoc results,
      (rows.map sigKey).Nodup →
      (∀ r ∈ rows, lookup2 results (sigKey r).1 (sigKey r).2 = none) →
      ∃ assoc2 results2,
        read_sigs_rows (assoc, results) rows = .ok (assoc2, results2) ∧
        ∀ r ∈ rows, lookup2 results2 (sigKey r).1 (sigKey r).2 = some r.contribution := by
  induction rows with
  | nil =>
    intro assoc results _ _
    exact ⟨assoc, results, rfl, by simp⟩
  | cons row rest ih =>
    intro assoc results hnodup habsent
    have hnodup' : (rest.map sigKey).Nodup := (List.nodup_cons.mp hnodup).2
    have hnotmem : sigKey row ∉ rest.map sigKey := (List.nodup_cons.mp hnodup).1
    have hrow := habsent row (List.mem_cons_self row rest)
    have habsent' : ∀ r ∈ rest,
        lookup2 (sig_insert results (sigKey row).1 (sigKey row).2 row.contribution)
          (sigKey r).1 (sigKey r).2 = none := by
      intro r hr
      rw [lookup2_sig_insert]
      have hne : sigKey r ≠ sigKey row := by
        intro h
        exact hnotmem (h ▸ List.mem_map_of_mem sigKey hr)
      rw [if_neg]
      · exact habsent r (List.mem_cons_of_mem row hr)
      · intro ⟨h1, h2⟩
        exact hne (Prod.ext h1 h2)
    obtain ⟨assoc2, results2, hrun, hcontent⟩ :=
      ih (if dget assoc row.signature = none then
            dinsert assoc row.signature row.association
          else assoc)
        (sig_insert results (sigKey row).1 (sigKey row).2 row.contribution)
        hnodup' habsent'
    refine ⟨assoc2, results2, ?_, ?_⟩
    · rw [read_sigs_rows_cons, if_pos hrow]
      exact hrun
    · intro r hr
      rcases List.mem_cons.mp hr with h | h
      · subst h
        have hpres := read_sigs_rows_preserve rest _ _ _ _ (sigKey r).1 (sigKey r).2 hrun
          (fun r' hr' => by
            intro hkey
            have h5 : sigKey r' = sigKey r := hkey
            exact hnotmem (h5 ▸ List.mem_map_of_mem sigKey hr'))
        rw [hpres, lookup2_sig_insert, if_pos ⟨rfl, rfl⟩]
      · exact hcontent r h

/-- A duplicate key among the rows (or a key already present in the
accumulator) makes the loop exit with `BadInput`. -/
theorem read_sigs_rows_err (rows : List SigRow) :
    ∀ assoc results,
      (¬ (rows.map sigKey).Nodup ∨
        ∃ r ∈ rows, lookup2 results (sigKey r).1 (sigKey r).2 ≠ none) →
      read_sigs_rows (assoc, results) rows = .error .BadInput := by
  induction rows with
  | nil =>
    intro assoc results h
    rcases h with h | ⟨r, hr, _⟩
    · exact absurd List.nodup_nil h
    · exact absurd hr (List.not_mem_nil r)
  | cons row rest ih =>
    intro assoc results h
    rw [read_sigs_rows_cons]
    by_cases hdup : lookup2 results (sigKey row).1 (sigKey row).2 = none
    · rw [if_pos hdup]
      apply ih
      rcases h with h | ⟨r, hr, hsome⟩
      · by_cases hmem : sigKey row ∈ List.map sigKey rest
        · obtain ⟨r, hr, hkey⟩ := List.mem_map.mp hmem
          refine Or.inr ⟨r, hr, ?_⟩
          rw [lookup2_sig_insert, if_pos ⟨by rw [hkey], by rw [hkey]⟩]
          simp
        · refine Or.inl (fun hnd => h (List.nodup_cons.mpr ⟨hmem, hnd⟩))
      · rcases List.mem_cons.mp hr with heq | hmem
        · subst heq
          exact absurd hdup hsome
        · refine Or.inr ⟨r, hmem, ?_⟩
          rw [lookup2_sig_insert]
          by_cases hk : (sigKey r).1 = (sigKey row).1 ∧ (sigKey r).2 = (sigKey row).2
          · rw [if_pos hk]; simp
          · rw [if_neg hk]; exact hsome
    · rw [if_neg hdup]

/-- Claim C5: `read_sigs` fails with `BadInput` exactly when the same
normalized `(sample, signature)` pair appears in two rows; with no duplicates
it completes and records one value per pair. -/
theorem read_sigs_spec (rows : List SigRow) :
    ((rows.map sigKey).Nodup →
      ∃ assoc2 results2, read_sigs rows = .ok (assoc2, results2) ∧
        ∀ r ∈ rows,
          lookup2 results2 (parse_sig_sample_id r.barcode) r.signature
            = some r.contribution) ∧
    (¬ (rows.map sigKey).Nodup → read_sigs rows = .error .BadInput) := by
  constructor
  · intro hnodup
    obtain ⟨assoc2, results2, hrun, hcontent⟩ :=
      read_sigs_rows_ok rows [] [] hnodup (fun r _ => rfl)
    exact ⟨assoc2, results2, hrun, hcontent⟩
  · intro hdup
    exact read_sigs_rows_err rows [] [] (Or.inl hdup)

theorem read_sigs_spec_witness :
    read_sigs
      [⟨"TCGA.OR.A5J1".toList, "SBS1".toList, "Aging".toList, some (31/100)⟩,
        ⟨"TCGA.OR.A5J1".toList, "SBS1".toList, "Aging".toList, some (2/10)⟩]
      = .error .BadInput := by
  refine (read_sigs_spec _).2 ?_
  decide

/-! ### RPPA loader (`read_rppa`) -/

/-- One data row of the RPPA csv: the raw `Sample_ID`, `Cancer_Type` and
`Sample_Type` cells, and the per-protein parse results of `float(row[protein])`
(`none` when the parse raised, i.e. the Python code stored `None`). -/
structure RppaRow where
  sample_id : Str
  cancer : Str
  sample_type : Str
  values : Str → Option ℚ

/-- `protein -> value` innermost map. -/
abbrev ProtMap := List (Str × Option ℚ)

/-- `sample_type -> protein -> value`. -/
abbrev TypeMap := List (Str × ProtMap)

/-- `cancer -> sample_type -> protein -> value`. -/
abbrev CancerMap := List (Str × TypeMap)

/-- The nested map built by `read_rppa`:
`sample_id -> cancer -> sample_type -> protein -> value`. -/
abbrev RppaMap := List (Str × CancerMap)

/-- Write one row into the nested map: create the missing `{}` levels for
`(sample, cancer, sample_type)` and then assign
`results[s][c][t][protein] = value` for every protein column. -/
def set_row (protein_names : List Str) (results : RppaMap) (s c t : Str)
    (values : Str → Option ℚ) : RppaMap :=
  let cm := (dget results s).getD []
  let tm := (dget cm c).getD []
  let pm := (dget tm t).getD []
  let pm1 := protein_names.foldl (fun acc p => dinsert acc p (values p)) pm
  dinsert results s (dinsert cm c (dinsert tm t pm1))

/-- The row loop of `read_rppa`: normalize each sample id (fatal on short
barcodes), then write the row's protein values into the nested map. -/
def read_rppa_rows (protein_names : List Str) :
    RppaMap → List RppaRow → Except Err RppaMap
  | results, [] => .ok results
  | results, row :: rest =>
      match parse_rppa_sample_id row.sample_id with
      | .error e => .error e
      | .ok this_sample =>
          read_rppa_rows protein_names
            (set_row protein_names results this_sample row.cancer row.sample_type row.values)
            rest

/-- `read_rppa`, starting from the empty nested map. -/
def read_rppa (protein_names : List Str) (rows : List RppaRow) : Except Err RppaMap :=
  read_rppa_rows protein_names [] rows

/-- `results[s][c][t][p]` seen from the outside: `none` when any level of the
nesting is absent. -/
def lookup4 (m : RppaMap) (s c t p : Str) : Option (Option ℚ) :=
  dget ((dget ((dget ((dget m s).getD []) c).getD []) t).getD []) p

/-- The normalized `(sample, cancer, sample_type)` triple of a row, when the
sample id parses. -/
def rowTriple (row : RppaRow) : Option (Str × Str × Str) :=
  match parse_rppa_sample_id row.sample_id with
  | .error _ => none
  | .ok s => some (s, row.cancer, row.sample_type)

theorem dget_foldl_dinsert_not_mem (l : List Str) (values : Str → Option ℚ)
    (p : Str) : ∀ pm : ProtMap, p ∉ l →
    dget (l.foldl (fun acc q => dinsert acc q (values q)) pm) p = dget pm p := by
  induction l with
  | nil => intro pm _; rfl
  | cons q rest ih =>
    intro pm hp
    simp only [List.mem_cons, not_or] at hp
    simp only [List.foldl_cons]
    rw [ih _ hp.2, dget_dinsert_ne _ _ _ _ hp.1]

theorem dget_foldl_dinsert_mem (l : List Str) (values : Str → Option ℚ)
    (p : Str) : ∀ pm : ProtMap, p ∈ l →
    dget (l.foldl (fun acc q => dinsert acc q (values q)) pm) p = some (values p) := by
  induction l with
  | nil => intro pm hp; cases hp
  | cons q rest ih =>
    intro pm hp
    simp only [List.foldl_cons]
    by_cases hmem : p ∈ rest
    · exact ih _ hmem
    · have hq : p = q := by
        rcases List.mem_cons.mp hp with h | h
        · exact h
        · exact absurd h hmem
      subst hq
      rw [dget_foldl_dinsert_not_mem rest values p _ hmem, dget_dinsert_self]

theorem lookup4_set_row_same (protein_names : List Str) (results : RppaMap)
    (s c t p : Str) (values : Str → Option ℚ) :
    lookup4 (set_row protein_names results s c t values) s c t p =
      if p ∈ protein_names then some (values p)
      else lookup4 results s c t p := by
  simp only [set_row, lookup4, dget_dinsert_self, Option.getD_some]
  by_cases hp : p ∈ protein_names
  · rw [dget_foldl_dinsert_mem _ _ _ _ hp, if_pos hp]
  · rw [dget_foldl_dinsert_not_mem _ _ _ _ hp, if_neg hp]

theorem lookup4_set_row_other (protein_names : List Str) (results : RppaMap)
    (s c t s' c' t' p : Str) (values : Str → Option ℚ)
    (h : ¬(s = s' ∧ c = c' ∧ t = t')) :
    lookup4 (set_row protein_names results s' c' t' values) s c t p =
      lookup4 results s c t p := by
  simp only [set_row, lookup4]
  by_cases hs : s = s'
  · subst hs
    rw [dget_dinsert_self, Option.getD_some]
    by_cases hc : c = c'
    · subst hc
      rw [dget_dinsert_self, Option.getD_some]
      have ht : t ≠ t' := by
        intro h'
        exact h ⟨rfl, rfl, h'⟩
      rw [dget_dinsert_ne _ _ _ _ ht]
    · rw [dget_dinsert_ne _ _ _ _ hc]
  · rw [dget_dinsert_ne _ _ _ _ hs]

theorem rowTriple_eq (r : RppaRow) (s c t : Str) (h : rowTriple r = some (s, c, t)) :
    parse_rppa_sample_id r.sample_id = .ok s ∧ r.cancer = c ∧ r.sample_type = t := by
  unfold rowTriple at h
  cases hparse : parse_rppa_sample_id r.sample_id with
  | error e => rw [hparse] at h; cases h
  | ok s₀ =>
    rw [hparse] at h
    simp only [Option.some.injEq, Prod.mk.injEq] at h
    exact ⟨by rw [h.1], h.2⟩

/-- Rows whose triple is not `(s, c, t)` leave `results[s][c][t]` untouched. -/
theorem read_rppa_rows_preserve (pn : List Str) (rows : List RppaRow) :
    ∀ results m s c t p,
      read_rppa_rows pn results rows = .ok m →
      (∀ x ∈ rows, rowTriple x ≠ some (s, c, t)) →
      lookup4 m s c t p = lookup4 results s c t p := by
  induction rows with
  | nil =>
    intro results m s c t p hrun _
    cases hrun
    rfl
  | cons x rest ih =>
    intro results m s c t p hrun hkeys
    cases hparse : parse_rppa_sample_id x.sample_id with
    | error e =>
      simp only [read_rppa_rows, hparse] at hrun
      cases hrun
    | ok s₀ =>
      simp only [read_rppa_rows, hparse] at hrun
      have hne : ¬(s = s₀ ∧ c = x.cancer ∧ t = x.sample_type) := by
        intro ⟨h1, h2, h3⟩
        refine hkeys x (List.mem_cons_self x rest) ?_
        simp only [rowTriple, hparse, h1, h2, h3]
      rw [ih _ _ _ _ _ _ hrun (fun y hy => hkeys y (List.mem_cons_of_mem x hy)),
        lookup4_set_row_other _ _ _ _ _ _ _ _ _ _ hne]

/-- The loader never fails when every sample id is long enough (in particular,
repeated `(sample, cancer, sample_type)` triples are not an error). -/
theorem read_rppa_rows_ok (pn : List Str) (rows : List RppaRow) :
    ∀ results, (∀ x ∈ rows, 12 ≤ x.sample_id.length) →
      ∃ m, read_rppa_rows pn results rows = .ok m := by
  induction rows with
  | nil => intro results _; exact ⟨results, rfl⟩
  | cons x rest ih =>
    intro results hlen
    have hparse : parse_rppa_sample_id x.sample_id = .ok (x.sample_id.take 12) :=
      (parse_rppa_sample_id_spec x.sample_id).1 (hlen x (List.mem_cons_self x rest))
    obtain ⟨m, hm⟩ :=
      ih (set_row pn results (x.sample_id.take 12) x.cancer x.sample_type x.values)
        (fun y hy => hlen y (List.mem_cons_of_mem x hy))
    refine ⟨m, ?_⟩
    simp only [read_rppa_rows, hparse]
    exact hm

/-- After the loader runs, the cell `(s, c, t, p)` holds the value of the last
row whose triple is `(s, c, t)`, for every protein column `p`. -/
theorem read_rppa_rows_last_write (pn : List Str) (a : List RppaRow) :
    ∀ results (r : RppaRow) b s c t m,
      rowTriple r = some (s, c, t) →
      (∀ x ∈ b, rowTriple x ≠ some (s, c, t)) →
      read_rppa_rows pn results (a ++ r :: b) = .ok m →
      ∀ p ∈ pn, lookup4 m s c t p = some (r.values p) := by
  induction a with
  | nil =>
    intro results r b s c t m hkey hlast hrun p hp
    obtain ⟨hparse, hc, ht⟩ := rowTriple_eq r s c t hkey
    simp only [List.nil_append, read_rppa_rows, hparse] at hrun
    rw [read_rppa_rows_preserve pn b _ m s c t p hrun hlast, hc, ht,
      lookup4_set_row_same, if_pos hp]
  | cons x a' ih =>
    intro results r b s c t m hkey hlast hrun p hp
    cases hparse : parse_rppa_sample_id x.sample_id with
    | error e =>
      simp only [List.cons_append, read_rppa_rows, hparse] at hrun
      cases hrun
    | ok s₀ =>
      simp only [List.cons_append, read_rppa_rows, hparse] at hrun
      exact ih _ r b s c t m hkey hlast hrun p hp

/-- Claim C6: the RPPA loader never fails on repeated
`(sample, cancer, sample_type)` triples — any rows with long-enough barcodes
load successfully — and when a triple repeats, the final nested map holds, for
every protein column, exactly the value parsed from the last row carrying that
triple (last-write-wins). -/
theorem read_rppa_spec (pn : List Str) (rows : List RppaRow) :
    ((∀ x ∈ rows, 12 ≤ x.sample_id.length) → ∃ m, read_rppa pn rows = .ok m) ∧
    (∀ a (r : RppaRow) b s c t m, rows = a ++ r :: b →
      rowTriple r = some (s, c, t) →
      (∀ x ∈ b, rowTriple x ≠ some (s, c, t)) →
      read_rppa pn rows = .ok m →
      ∀ p ∈ pn, lookup4 m s c t p = some (r.values p)) := by
  constructor
  · intro hlen
    exact read_rppa_rows_ok pn rows [] hlen
  · intro a r b s c t m hsplit hkey hlast hrun p hp
    subst hsplit
    exact read_rppa_rows_last_write pn a [] r b s c t m hkey hlast hrun p hp

/-- First duplicate-triple row for the `read_rppa_spec` witness. -/
def rppaRowW1 : RppaRow :=
  ⟨"TCGA-AA-AAAA-01A".toList, "BRCA".toList, "Primary".toList, fun _ => some 1⟩

/-- Second duplicate-triple row for the `read_rppa_spec` witness. -/
def rppaRowW2 : RppaRow :=
  ⟨"TCGA-AA-AAAA-01A".toList, "BRCA".toList, "Primary".toList, fun _ => some 2⟩

/-- The nested map the loader builds from the two witness rows. -/
def rppaMapW : RppaMap :=
  [("TCGA-AA-AAAA".toList,
    [("BRCA".toList, [("Primary".toList, [(['P'], some 2)])])])]

theorem read_rppa_spec_witness :
    lookup4 rppaMapW ("TCGA-AA-AAAA".toList) ("BRCA".toList) ("Primary".toList) ['P']
      = some (some 2) :=
  (read_rppa_spec [['P']] [rppaRowW1, rppaRowW2]).2 [rppaRowW1] rppaRowW2 []
    ("TCGA-AA-AAAA".toList) ("BRCA".toList) ("Primary".toList) rppaMapW rfl
    (by decide) (by intro x hx; cases hx) rfl ['P'] (by decide)

/-- `cancer_types_per_sample`: the min and max number of cancer types per
sample; Python's `min`/`max` of an empty list raises `ValueError`. -/
def cancer_types_per_sample (sample_rppa : RppaMap) : Except Err (Nat × Nat) :=
  let counts := sample_rppa.map (fun kv => kv.2.length)
  match counts.min?, counts.max? with
  | some mn, some mx => .ok (mn, mx)
  | _, _ => .error .ValueError

/-! ### Joiner (`join_on_sample`) -/

/-- The per-cancer joined record `{'sigs': ..., 'proteins': ...}`. -/
structure JoinEntry where
  sigs : SigValMap
  proteins : ProtMap
deriving DecidableEq, Repr

/-- `sample -> cancer -> {'sigs': ..., 'proteins': ...}`. -/
abbrev JoinMap := List (Str × List (Str × JoinEntry))

/-- The single sample type the join keeps ("Only consider primaries"). -/
def primary : Str := "Primary".toList

/-- The copy loop `for k in src: dst[k] = src[k]`. -/
def dict_copy (dst src : ProtMap) : ProtMap :=
  src.foldl (fun acc kv => dinsert acc kv.1 kv.2) dst

/-- The body run for each `(sample, cancer, 'Primary')` occurrence: create the
sample's entry (duplicate sample = fatal), create the cancer slot, and copy in
the signature and protein mappings. -/
def join_primary (sample cancer : Str) (sig_values : SigValMap) (proteins : ProtMap)
    (results : JoinMap) : Except Err JoinMap :=
  if dget results sample = none then
    let results1 := dinsert results sample []
    let rsample := (dget results1 sample).getD []
    let rsample1 := if dget rsample cancer = none then
                      dinsert rsample cancer ⟨[], []⟩
                    else rsample
    let entry := (dget rsample1 cancer).getD ⟨[], []⟩
    let entry1 : JoinEntry :=
      ⟨dict_copy entry.sigs sig_values, dict_copy entry.proteins proteins⟩
    .ok (dinsert results1 sample (dinsert rsample1 cancer entry1))
  else .error .BadInput

/-- Inner loop over `sample_types.items()`, keeping only `'Primary'`. -/
def join_sample_types (sample cancer : Str) (sig_values : SigValMap) :
    JoinMap → TypeMap → Except Err JoinMap
  | results, [] => .ok results
  | results, (sample_type, proteins) :: rest =>
      if sample_type = primary then
        match join_primary sample cancer sig_values proteins results with
        | .error e => .error e
        | .ok r => join_sample_types sample cancer sig_values r rest
      else join_sample_types sample cancer sig_values results rest

/-- Middle loop over `cancer_types.items()`. -/
def join_cancer_types (sample : Str) (sig_values : SigValMap) :
    JoinMap → CancerMap → Except Err JoinMap
  | results, [] => .ok results
  | results, (cancer, sample_types) :: rest =>
      match join_sample_types sample cancer sig_values results sample_types with
      | .error e => .error e
      | .ok r => join_cancer_types sample sig_values r rest

/-- Outer loop over `rppa.items()`: skip samples with no signature data. -/
def join_samples (sigs : SigMap) : JoinMap → RppaMap → Except Err JoinMap
  | results, [] => .ok results
  | results, (sample, cancer_types) :: rest =>
      match dget sigs sample with
      | none => join_samples sigs results rest
      | some sig_values =>
          match join_cancer_types sample sig_values results cancer_types with
          | .error e => .error e
          | .ok r => join_samples sigs r rest

/-- `join_on_sample`, starting from the empty joined record. -/
def join_on_sample (rppa : RppaMap) (sigs : SigMap) : Except Err JoinMap :=
  join_samples sigs [] rppa

theorem join_primary_error_eq (sample cancer : Str) (sv : SigValMap) (pm : ProtMap)
    (results : JoinMap) (e : Err)
    (h : join_primary sample cancer sv pm results = .error e) : e = .BadInput := by
  unfold join_primary at h
  by_cases hs : dget results sample = none
  · rw [if_pos hs] at h; cases h
  · rw [if_neg hs] at h; cases h; rfl

theorem join_sample_types_error_eq (sample cancer : Str) (sv : SigValMap) :
    ∀ results ts e, join_sample_types sample cancer sv results ts = .error e →
      e = .BadInput := by
  intro results ts
  induction ts generalizing results with
  | nil => intro e h; cases h
  | cons te rest ih =>
    intro e h
    obtain ⟨t, pm⟩ := te
    simp only [join_sample_types] at h
    by_cases ht : t = primary
    · rw [if_pos ht] at h
      cases hj : join_primary sample cancer sv pm results with
      | error e' =>
        rw [hj] at h
        cases h
        exact join_primary_error_eq _ _ _ _ _ _ hj
      | ok r =>
        rw [hj] at h
        exact ih r e h
    · rw [if_neg ht] at h
      exact ih results e h

theorem join_cancer_types_error_eq (sample : Str) (sv : SigValMap) :
    ∀ results cm e, join_cancer_types sample sv results cm = .error e →
      e = .BadInput := by
  intro results cm
  induction cm generalizing results with
  | nil => intro e h; cases h
  | cons ce rest ih =>
    intro e h
    obtain ⟨c, ts⟩ := ce
    simp only [join_cancer_types] at h
    cases hj : join_sample_types sample c sv results ts with
    | error e' =>
      rw [hj] at h
      cases h
      exact join_sample_types_error_eq _ _ _ _ _ _ hj
    | ok r =>
      rw [hj] at h
      exact ih r e h

theorem join_primary_preserve (sample cancer : Str) (sv : SigValMap) (pm : ProtMap)
    (results r : JoinMap) (k : Str) (hk : k ≠ sample)
    (h : join_primary sample cancer sv pm results = .ok r) :
    dget r k = dget results k := by
  unfold join_primary at h
  by_cases hs : dget results sample = none
  · rw [if_pos hs] at h
    cases h
    rw [dget_dinsert_ne _ _ _ _ hk, dget_dinsert_ne _ _ _ _ hk]
  · rw [if_neg hs] at h; cases h

theorem join_primary_self (sample cancer : Str) (sv : SigValMap) (pm : ProtMap)
    (results r : JoinMap)
    (h : join_primary sample cancer sv pm results = .ok r) :
    dget results sample = none ∧ (dget r sample).isSome := by
  unfold join_primary at h
  by_cases hs : dget results sample = none
  · rw [if_pos hs] at h
    cases h
    rw [dget_dinsert_self]
    exact ⟨hs, rfl⟩
  · rw [if_neg hs] at h; cases h

theorem join_sample_types_preserve (sample cancer : Str) (sv : SigValMap) :
    ∀ results r ts (k : Str), k ≠ sample →
      join_sample_types sample cancer sv results ts = .ok r →
      dget r k = dget results k := by
  intro results r ts
  induction ts generalizing results with
  | nil => intro k _ h; cases h; rfl
  | cons te rest ih =>
    intro k hk h
    obtain ⟨t, pm⟩ := te
    simp only [join_sample_types] at h
    by_cases ht : t = primary
    · rw [if_pos ht] at h
      cases hj : join_primary sample cancer sv pm results with
      | error e => rw [hj] at h; cases h
      | ok r1 =>
        rw [hj] at h
        rw [ih r1 k hk h, join_primary_preserve _ _ _ _ _ _ _ hk hj]
    · rw [if_neg ht] at h
      exact ih results k hk h

theorem join_cancer_types_preserve (sample : Str) (sv : SigValMap) :
    ∀ results r cm (k : Str), k ≠ sample →
      join_cancer_types sample sv results cm = .ok r →
      dget r k = dget results k := by
  intro results r cm
  induction cm generalizing results with
  | nil => intro k _ h; cases h; rfl
  | cons ce rest ih =>
    intro k hk h
    obtain ⟨c, ts⟩ := ce
    simp only [join_cancer_types] at h
    cases hj : join_sample_types sample c sv results ts with
    | error e => rw [hj] at h; cases h
    | ok r1 =>
      rw [hj] at h
      rw [ih r1 k hk h, join_sample_types_preserve _ _ _ _ _ _ _ hk hj]

/-- When the sample already has an entry, any remaining `'Primary'` occurrence
is a fatal duplicate. -/
theorem join_sample_types_dup (sample cancer : Str) (sv : SigValMap) :
    ∀ results ts, (dget results sample).isSome →
      (∃ te ∈ ts, te.1 = primary) →
      join_sample_types sample cancer sv results ts = .error .BadInput := by
  intro results ts
  induction ts generalizing results with
  | nil =>
    intro _ ⟨te, hte, _⟩
    cases hte
  | cons te0 rest ih =>
    intro hsome hex
    obtain ⟨t, pm⟩ := te0
    simp only [join_sample_types]
    by_cases ht : t = primary
    · rw [if_pos ht]
      have herr : join_primary sample cancer sv pm results = .error .BadInput := by
        unfold join_primary
        rw [if_neg (by
          intro hnone
          rw [hnone] at hsome
          cases hsome)]
      rw [herr]
    · rw [if_neg ht]
      refine ih results hsome ?_
      obtain ⟨te, hte, hp⟩ := hex
      rcases List.mem_cons.mp hte with heq | hmem
      · rw [heq] at hp
        exact absurd hp ht
      · exact ⟨te, hmem, hp⟩

/-- When the sample already has an entry, a type list with no `'Primary'`
occurrence changes nothing; in particular a successful run returns the map
unchanged. -/
theorem join_sample_types_some_ok (sample cancer : Str) (sv : SigValMap) :
    ∀ results r ts, (dget results sample).isSome →
      join_sample_types sample cancer sv results ts = .ok r →
      r = results := by
  intro results r ts
  induction ts generalizing results with
  | nil => intro _ h; cases h; rfl
  | cons te0 rest ih =>
    intro hsome h
    obtain ⟨t, pm⟩ := te0
    simp only [join_sample_types] at h
    by_cases ht : t = primary
    · rw [if_pos ht] at h
      have herr : join_primary sample cancer sv pm results = .error .BadInput := by
        unfold join_primary
        rw [if_neg (by
          intro hnone
          rw [hnone] at hsome
          cases hsome)]
      rw [herr] at h
      cases h
    · rw [if_neg ht] at h
      exact ih results hsome h

/-- A type list containing `'Primary'` that runs successfully leaves the sample
with an entry. -/
theorem join_sample_types_primary_some (sample cancer : Str) (sv : SigValMap) :
    ∀ results r ts, (∃ te ∈ ts, te.1 = primary) →
      join_sample_types sample cancer sv results ts = .ok r →
      (dget r sample).isSome := by
  intro results r ts
  induction ts generalizing results with
  | nil =>
    intro ⟨te, hte, _⟩ _
    cases hte
  | cons te0 rest ih =>
    intro hex h
    obtain ⟨t, pm⟩ := te0
    simp only [join_sample_types] at h
    by_cases ht : t = primary
    · rw [if_pos ht] at h
      cases hj : join_primary sample cancer sv pm results with
      | error e => rw [hj] at h; cases h
      | ok r1 =>
        rw [hj] at h
        have hr1 : (dget r1 sample).isSome := (join_primary_self _ _ _ _ _ _ hj).2
        have := join_sample_types_some_ok sample cancer sv r1 r rest hr1 h
        rw [this]
        exact hr1
    · rw [if_neg ht] at h
      obtain ⟨te, hte, hp⟩ := hex
      rcases List.mem_cons.mp hte with heq | hmem
      · rw [heq] at hp
        exact absurd hp ht
      · exact ih results ⟨te, hmem, hp⟩ h

/-- When the sample already has an entry, any remaining cancer type carrying a
`'Primary'` occurrence is fatal. -/
theorem join_cancer_types_dup (sample : Str) (sv : SigValMap) :
    ∀ results cm, (dget results sample).isSome →
      (∃ ce ∈ cm, ∃ te ∈ ce.2, te.1 = primary) →
      join_cancer_types sample sv results cm = .error .BadInput := by
  intro results cm
  induction cm generalizing results with
  | nil =>
    intro _ ⟨ce, hce, _⟩
    cases hce
  | cons ce0 rest ih =>
    intro hsome hex
    obtain ⟨c, ts⟩ := ce0
    simp only [join_cancer_types]
    by_cases hts : ∃ te ∈ ts, te.1 = primary
    · rw [join_sample_types_dup sample c sv results ts hsome hts]
    · cases hj : join_sample_types sample c sv results ts with
      | error e =>
        have he := join_sample_types_error_eq _ _ _ _ _ _ hj
        subst he
        rfl
      | ok r =>
        have hr : r = results := join_sample_types_some_ok _ _ _ _ _ _ hsome hj
        subst hr
        show join_cancer_types sample sv r rest = .error .BadInput
        refine ih r hsome ?_
        obtain ⟨ce, hce, hte⟩ := hex
        rcases List.mem_cons.mp hce with heq | hmem
        · rw [heq] at hte
          exact absurd hte hts
        · exact ⟨ce, hmem, hte⟩

/-- Starting from a sample with no entry, a cancer list carrying `'Primary'`
occurrences under two positions fails. -/
theorem join_cancer_types_two_primaries (sample : Str) (sv : SigValMap) :
    ∀ ca results (c1 : Str) ts1 cb,
      dget results sample = none →
      (∃ te ∈ ts1, te.1 = primary) →
      (∃ ce ∈ cb, ∃ te ∈ ce.2, te.1 = primary) →
      join_cancer_types sample sv results (ca ++ (c1, ts1) :: cb) = .error .BadInput := by
  intro ca
  induction ca with
  | nil =>
    intro results c1 ts1 cb hnone hts1 hcb
    simp only [List.nil_append, join_cancer_types]
    cases hj : join_sample_types sample c1 sv results ts1 with
    | error e =>
      have he := join_sample_types_error_eq _ _ _ _ _ _ hj
      subst he
      rfl
    | ok r =>
      have hr : (dget r sample).isSome :=
        join_sample_types_primary_some _ _ _ _ _ _ hts1 hj
      show join_cancer_types sample sv r cb = .error .BadInput
      exact join_cancer_types_dup sample sv r cb hr hcb
  | cons ce0 rest ih =>
    intro results c1 ts1 cb hnone hts1 hcb
    obtain ⟨c, ts⟩ := ce0
    simp only [List.cons_append, join_cancer_types]
    cases hj : join_sample_types sample c sv results ts with
    | error e =>
      have he := join_sample_types_error_eq _ _ _ _ _ _ hj
      subst he
      rfl
    | ok r =>
      show join_cancer_types sample sv r (rest ++ (c1, ts1) :: cb) = .error .BadInput
      cases hr : dget r sample with
      | none => exact ih r c1 ts1 cb hr hts1 hcb
      | some entry =>
        refine join_cancer_types_dup sample sv r _ (by rw [hr]; rfl) ?_
        exact ⟨(c1, ts1), List.mem_append_right rest (List.mem_cons_self _ _), hts1⟩

/-- The outer loop fails when it reaches a sample, present in the signature
map, whose cancer list carries two `'Primary'` occurrences. -/
theorem join_samples_two_primary (sigs : SigMap) :
    ∀ ra results sample (ca : CancerMap) (c1 : Str) ts1 cb rb sv,
      (∀ e ∈ ra, e.1 ≠ sample) →
      dget results sample = none →
      dget sigs sample = some sv →
      (∃ te ∈ ts1, te.1 = primary) →
      (∃ ce ∈ cb, ∃ te ∈ ce.2, te.1 = primary) →
      join_samples sigs results (ra ++ (sample, ca ++ (c1, ts1) :: cb) :: rb)
        = .error .BadInput := by
  intro ra
  induction ra with
  | nil =>
    intro results sample ca c1 ts1 cb rb sv _ hnone hsv hts1 hcb
    simp only [List.nil_append, join_samples, hsv]
    rw [join_cancer_types_two_primaries sample sv ca results c1 ts1 cb hnone hts1 hcb]
  | cons e0 rest ih =>
    intro results sample ca c1 ts1 cb rb sv hra hnone hsv hts1 hcb
    obtain ⟨k, cm⟩ := e0
    have hk : k ≠ sample := hra (k, cm) (List.mem_cons_self _ _)
    cases hgs : dget sigs k with
    | none =>
      simp only [List.cons_append, join_samples, hgs]
      exact ih results sample ca c1 ts1 cb rb sv
        (fun e he => hra e (List.mem_cons_of_mem _ he)) hnone hsv hts1 hcb
    | some sv' =>
      cases hj : join_cancer_types k sv' results cm with
      | error e =>
        have he := join_cancer_types_error_eq _ _ _ _ _ hj
        subst he
        simp only [List.cons_append, join_samples, hgs, hj]
      | ok r =>
        simp only [List.cons_append, join_samples, hgs, hj]
        have hr : dget r sample = none := by
          rw [join_cancer_types_preserve k sv' results r cm sample (Ne.symm hk) hj]
          exact hnone
        exact ih r sample ca c1 ts1 cb rb sv
          (fun e he => hra e (List.mem_cons_of_mem _ he)) hr hsv hts1 hcb

/-- Claim C7: the joiner fails with `BadInput` whenever a sample present in
both source maps carries the allowed sample type `'Primary'` under more than
one cancer type in the RPPA map. -/
theorem join_on_sample_dup_primary (rppa : RppaMap) (sigs : SigMap)
    (sample : Str) (sv : SigValMap) (ra rb : List (Str × CancerMap))
    (ca cb : CancerMap) (c1 c2 : Str) (ts1 ts2 : TypeMap)
    (hsplit : rppa = ra ++ (sample, ca ++ (c1, ts1) :: cb) :: rb)
    (hra : ∀ e ∈ ra, e.1 ≠ sample)
    (hsv : dget sigs sample = some sv)
    (hts1 : ∃ te ∈ ts1, te.1 = primary)
    (hc2 : (c2, ts2) ∈ cb) (hts2 : ∃ te ∈ ts2, te.1 = primary)
    (_hcc : c1 ≠ c2) :
    join_on_sample rppa sigs = .error .BadInput := by
  subst hsplit
  exact join_samples_two_primary sigs ra [] sample ca c1 ts1 cb rb sv hra rfl hsv
    hts1 ⟨(c2, ts2), hc2, hts2⟩

theorem join_on_sample_dup_primary_witness :
    join_on_sample
      [("TCGA-AA-AAAA".toList,
        [("BRCA".toList, [(primary, [])]), ("LUAD".toList, [(primary, [])])])]
      [("TCGA-AA-AAAA".toList, [("SBS1".toList, some 1)])]
      = .error .BadInput :=
  join_on_sample_dup_primary _ _ ("TCGA-AA-AAAA".toList)
    [("SBS1".toList, some 1)] [] [] [] [("LUAD".toList, [(primary, [])])]
    ("BRCA".toList) ("LUAD".toList) [(primary, [])] [(primary, [])]
    rfl (fun e he => absurd he (List.not_mem_nil e)) rfl
    ⟨(primary, []), List.mem_cons_self _ _, rfl⟩
    (List.mem_cons_self _ _)
    ⟨(primary, []), List.mem_cons_self _ _, rfl⟩
    (by decide)

/-- A type list with no `'Primary'` occurrence changes nothing and succeeds. -/
theorem join_sample_types_no_primary (sample cancer : Str) (sv : SigValMap)
    (results : JoinMap) : ∀ ts, (∀ te ∈ ts, te.1 ≠ primary) →
      join_sample_types sample cancer sv results ts = .ok results := by
  intro ts
  induction ts with
  | nil => intro _; rfl
  | cons te0 rest ih =>
    intro hnp
    obtain ⟨t, pm⟩ := te0
    simp only [join_sample_types]
    rw [if_neg (hnp (t, pm) (List.mem_cons_self _ _))]
    exact ih (fun te hte => hnp te (List.mem_cons_of_mem _ hte))

/-- A cancer list with no `'Primary'` occurrence anywhere changes nothing. -/
theorem join_cancer_types_no_primary (sample : Str) (sv : SigValMap)
    (results : JoinMap) : ∀ cm, (∀ ce ∈ cm, ∀ te ∈ ce.2, te.1 ≠ primary) →
      join_cancer_types sample sv results cm = .ok results := by
  intro cm
  induction cm with
  | nil => intro _; rfl
  | cons ce0 rest ih =>
    intro hnp
    obtain ⟨c, ts⟩ := ce0
    simp only [join_cancer_types]
    rw [join_sample_types_no_primary sample c sv results ts
      (fun te hte => hnp (c, ts) (List.mem_cons_self _ _) te hte)]
    exact ih (fun ce hce => hnp ce (List.mem_cons_of_mem _ hce))

/-- A sample absent from the signature map, or present only under non-Primary
sample types, is never added to the joined record. -/
theorem join_samples_preserve_excluded (sigs : SigMap) (sample : Str) :
    ∀ rppalist results r,
      (dget sigs sample = none ∨
        ∀ e ∈ rppalist, e.1 = sample → ∀ ce ∈ e.2, ∀ te ∈ ce.2, te.1 ≠ primary) →
      join_samples sigs results rppalist = .ok r →
      dget r sample = dget results sample := by
  intro rppalist
  induction rppalist with
  | nil =>
    intro results r _ hrun
    cases hrun
    rfl
  | cons e0 rest ih =>
    intro results r h hrun
    obtain ⟨k, cm⟩ := e0
    have hrest : dget sigs sample = none ∨
        ∀ e ∈ rest, e.1 = sample → ∀ ce ∈ e.2, ∀ te ∈ ce.2, te.1 ≠ primary :=
      h.imp id (fun hh e he => hh e (List.mem_cons_of_mem _ he))
    cases hgs : dget sigs k with
    | none =>
      simp only [join_samples, hgs] at hrun
      exact ih results r hrest hrun
    | some sv' =>
      cases hj : join_cancer_types k sv' results cm with
      | error e =>
        simp only [join_samples, hgs, hj] at hrun
        cases hrun
      | ok r1 =>
        simp only [join_samples, hgs, hj] at hrun
        by_cases hk : k = sample
        · subst hk
          rcases h with hnone | hnp
          · rw [hnone] at hgs
            cases hgs
          · have hok : join_cancer_types k sv' results cm = .ok results :=
              join_cancer_types_no_primary k sv' results cm
                (hnp (k, cm) (List.mem_cons_self _ _) rfl)
            rw [hj] at hok
            injection hok with hok
            subst hok
            exact ih _ r hrest hrun
        · rw [ih r1 r hrest hrun]
          exact join_cancer_types_preserve k sv' results r1 cm sample
            (fun hh => hk hh.symm) hj

/-- Claim C8: a sample absent from either source map, or present in both but
only under sample types other than `'Primary'`, gets no entry in the joined
record, and its own entry processes without error and without change. -/
theorem join_on_sample_excluded (rppa : RppaMap) (sigs : SigMap) (sample : Str)
    (h : dget sigs sample = none ∨
      ∀ e ∈ rppa, e.1 = sample → ∀ ce ∈ e.2, ∀ te ∈ ce.2, te.1 ≠ primary) :
    (∀ r, join_on_sample rppa sigs = .ok r → dget r sample = none) ∧
    (∀ e ∈ rppa, e.1 = sample → ∀ results : JoinMap,
      join_samples sigs results [e] = .ok results) := by
  constructor
  · intro r hrun
    exact join_samples_preserve_excluded sigs sample rppa [] r h hrun
  · intro e he he1 results
    obtain ⟨k, cm⟩ := e
    have hks : k = sample := he1
    subst hks
    rcases h with hnone | hnp
    · simp only [join_samples, hnone]
    · have hnpk : ∀ ce ∈ cm, ∀ te ∈ ce.2, te.1 ≠ primary := hnp (k, cm) he rfl
      cases hgs : dget sigs k with
      | none => simp only [join_samples, hgs]
      | some sv' =>
        simp only [join_samples, hgs,
          join_cancer_types_no_primary k sv' results cm hnpk]

theorem join_on_sample_excluded_witness :
    dget ([] : JoinMap) ("TCGA-AB-ABAB".toList) = none :=
  (join_on_sample_excluded
      [("TCGA-AB-ABAB".toList, [("BRCA".toList, [(primary, [])])])]
      [] ("TCGA-AB-ABAB".toList) (Or.inl rfl)).1 [] rfl

/-! ### Series builder (`get_correlations`) -/

/-- The two parallel series `{'sigs': [...], 'proteins': [...]}`. -/
structure SeriesPair where
  sigs : List ℚ
  proteins : List ℚ
deriving DecidableEq, Repr

/-- `(signature, protein) -> series pair`. -/
abbrev PairMap := List ((Str × Str) × SeriesPair)

/-- `cancer -> (signature, protein) -> series pair`. -/
abbrev CorrMap := List (Str × PairMap)

/-- `itertools.product(xs, ys)`. -/
def product2 (xs ys : List Str) : List (Str × Str) :=
  xs.flatMap (fun x => ys.map (fun y => (x, y)))

/-- `results[cancer_type][(s, p)] = {'sigs': [], 'proteins': []}` for the full
cross product. -/
def init_pairs (signature_names protein_names : List Str) : PairMap :=
  (product2 signature_names protein_names).foldl
    (fun acc sp => dinsert acc sp ⟨[], []⟩) []

/-- The pre-initialization loop of `get_correlations`. -/
def init_results (rppa_cancer_types signature_names protein_names : List Str) :
    CorrMap :=
  rppa_cancer_types.foldl
    (fun acc c => dinsert acc c (init_pairs signature_names protein_names)) []

/-- The `for s, p in product(...)` loop for one joined sample/cancer entry:
`this_sigs[s]` and `this_proteins[p]` are unguarded dict indexings (a missing
key raises `KeyError`), and the pair is appended only when both values are
non-`None`. -/
def corr_pairs (cancer : Str) (this_sigs : SigValMap) (this_proteins : ProtMap) :
    CorrMap → List (Str × Str) → Except Err CorrMap
  | results, [] => .ok results
  | results, (s, p) :: rest =>
      match dget this_sigs s with
      | none => .error .KeyError
      | some this_sig_val =>
          match dget this_proteins p with
          | none => .error .KeyError
          | some this_protein_val =>
              match this_sig_val, this_protein_val with
              | some a, some b =>
                  match dget results cancer with
                  | none => .error .KeyError
                  | some cpairs =>
                      match dget cpairs (s, p) with
                      | none => .error .KeyError
                      | some pair =>
                          corr_pairs cancer this_sigs this_proteins
                            (dinsert results cancer
                              (dinsert cpairs (s, p)
                                ⟨pair.sigs ++ [a], pair.proteins ++ [b]⟩))
                            rest
              | _, _ => corr_pairs cancer this_sigs this_proteins results rest

/-- The `for cancer_type in cancer_types` loop: an unexpected cancer type is
fatal (`BadInput`). -/
def corr_cancers (signature_names protein_names : List Str) :
    CorrMap → List (Str × JoinEntry) → Except Err CorrMap
  | results, [] => .ok results
  | results, (cancer_type, entry) :: rest =>
      match dget results cancer_type with
      | none => .error .BadInput
      | some _ =>
          match corr_pairs cancer_type entry.sigs entry.proteins results
              (product2 signature_names protein_names) with
          | .error e => .error e
          | .ok r => corr_cancers signature_names protein_names r rest

/-- The `for sample, cancer_types in join_data.items()` loop. -/
def corr_samples (signature_names protein_names : List Str) :
    CorrMap → JoinMap → Except Err CorrMap
  | results, [] => .ok results
  | results, (_, cancer_types) :: rest =>
      match corr_cancers signature_names protein_names results cancer_types with
      | .error e => .error e
      | .ok r => corr_samples signature_names protein_names r rest

/-- `get_correlations`. -/
def get_correlations (rppa_cancer_types signature_names protein_names : List Str)
    (join_data : JoinMap) : Except Err CorrMap :=
  corr_samples signature_names protein_names
    (init_results rppa_cancer_types signature_names protein_names) join_data

/-- `results[cancer][(s, p)]`, from the outside. -/
def slot (results : CorrMap) (cancer : Str) (sp : Str × Str) : Option SeriesPair :=
  (dget results cancer).bind (fun cpairs => dget cpairs sp)

/-- The `(signature value, protein value)` pair a joined entry contributes for
`(s, p)`: present exactly when both sides are recorded and non-missing. -/
def entry_contrib (sigsv : SigValMap) (protv : ProtMap) (s p : Str) :
    Option (ℚ × ℚ) :=
  match dget sigsv s, dget protv p with
  | some (some a), some (some b) => some (a, b)
  | _, _ => none

/-- All contributions to the `(c, s, p)` series, one per joined
sample/cancer-type entry with cancer type `c` and both values present, in the
iteration order of the joined record. -/
def contribs (join_data : JoinMap) (c s p : Str) : List (ℚ × ℚ) :=
  join_data.flatMap (fun se =>
    se.2.filterMap (fun ce =>
      if ce.1 = c then entry_contrib ce.2.sigs ce.2.proteins s p else none))

theorem mem_product2 (xs ys : List Str) (s p : Str) :
    (s, p) ∈ product2 xs ys ↔ s ∈ xs ∧ p ∈ ys := by
  unfold product2
  rw [List.mem_flatMap]
  constructor
  · intro ⟨x, hx, hmem⟩
    obtain ⟨y, hy, heq⟩ := List.mem_map.mp hmem
    obtain ⟨h1, h2⟩ := Prod.mk.injEq .. ▸ heq
    exact ⟨h1 ▸ hx, h2 ▸ hy⟩
  · intro ⟨hs, hp⟩
    exact ⟨s, hs, List.mem_map.mpr ⟨p, hp, rfl⟩⟩

theorem dget_foldl_dinsert_const {α β : Type} [DecidableEq α] (v : β)
    (l : List α) (c : α) :
    ∀ m : List (α × β), dget (l.foldl (fun acc k => dinsert acc k v) m) c =
      if c ∈ l then some v else dget m c := by
  induction l with
  | nil => intro m; simp
  | cons k rest ih =>
    intro m
    simp only [List.foldl_cons]
    rw [ih]
    by_cases hc : c ∈ rest
    · rw [if_pos hc, if_pos (List.mem_cons_of_mem _ hc)]
    · rw [if_neg hc, dget_dinsert]
      by_cases hk : c = k
      · rw [if_pos hk, if_pos (List.mem_cons.mpr (Or.inl hk))]
      · rw [if_neg hk, if_neg (by simp [hk, hc])]

theorem dget_init_results (cts sns pns : List Str) (c : Str) :
    dget (init_results cts sns pns) c =
      if c ∈ cts then some (init_pairs sns pns) else none := by
  unfold init_results
  rw [dget_foldl_dinsert_const]
  split_ifs <;> rfl

theorem dget_init_pairs (sns pns : List Str) (sp : Str × Str) :
    dget (init_pairs sns pns) sp =
      if sp ∈ product2 sns pns then some ⟨[], []⟩ else none := by
  unfold init_pairs
  rw [dget_foldl_dinsert_const]
  split_ifs <;> rfl

theorem slot_init (cts sns pns : List Str) (c s p : Str)
    (hc : c ∈ cts) (hs : s ∈ sns) (hp : p ∈ pns) :
    slot (init_results cts sns pns) c (s, p) = some ⟨[], []⟩ := by
  unfold slot
  rw [dget_init_results, if_pos hc, Option.some_bind, dget_init_pairs,
    if_pos ((mem_product2 sns pns s p).mpr ⟨hs, hp⟩)]

theorem slot_dinsert_same (results : CorrMap) (cancer : Str) (cpairs : PairMap)
    (hc : dget results cancer = some cpairs) (sp sp' : Str × Str) (v : SeriesPair) :
    slot (dinsert results cancer (dinsert cpairs sp v)) cancer sp' =
      if sp' = sp then some v else slot results cancer sp' := by
  unfold slot
  rw [dget_dinsert_self, Option.some_bind, dget_dinsert, hc, Option.some_bind]

theorem slot_dinsert_other (results : CorrMap) (cancer c' : Str) (x : PairMap)
    (h : c' ≠ cancer) (sp : Str × Str) :
    slot (dinsert results cancer x) c' sp = slot results c' sp := by
  unfold slot
  rw [dget_dinsert_ne _ _ _ _ h]

/-- Effect of the pair loop for one joined entry on every slot: the slot of
each listed `(s, p)` gains that entry's contribution (when both values are
present), all other slots and cancers are untouched. -/
theorem corr_pairs_slot (cancer : Str) (sigsv : SigValMap) (protv : ProtMap) :
    ∀ (l : List (Str × Str)) results r, l.Nodup →
      corr_pairs cancer sigsv protv results l = .ok r →
      (∀ sp ∈ l, slot r cancer sp =
        (match entry_contrib sigsv protv sp.1 sp.2 with
          | none => slot results cancer sp
          | some ab => (slot results cancer sp).map
              (fun pr => ⟨pr.sigs ++ [ab.1], pr.proteins ++ [ab.2]⟩))) ∧
      (∀ sp, sp ∉ l → slot r cancer sp = slot results cancer sp) ∧
      (∀ c', c' ≠ cancer → dget r c' = dget results c') := by
  intro l
  induction l with
  | nil =>
    intro results r _ hrun
    cases hrun
    exact ⟨fun sp hsp => absurd hsp (List.not_mem_nil sp),
      fun _ _ => rfl, fun _ _ => rfl⟩
  | cons sp0 rest ih =>
    intro results r hnodup hrun
    obtain ⟨s, p⟩ := sp0
    have hnd := List.nodup_cons.mp hnodup
    cases hsig : dget sigsv s with
    | none =>
      simp only [corr_pairs, hsig] at hrun
      cases hrun
    | some sv =>
      cases hprot : dget protv p with
      | none =>
        simp only [corr_pairs, hsig, hprot] at hrun
        cases hrun
      | some pv =>
        have hcontrib_none : ∀ (hnone : ¬(∃ a b, sv = some a ∧ pv = some b)),
            entry_contrib sigsv protv s p = none := by
          intro hnone
          simp only [entry_contrib, hsig, hprot]
          cases sv with
          | none => rfl
          | some a =>
            cases pv with
            | none => rfl
            | some b => exact absurd ⟨a, b, rfl, rfl⟩ hnone
        cases sv with
        | none =>
          simp only [corr_pairs, hsig, hprot] at hrun
          obtain ⟨ih1, ih2, ih3⟩ := ih results r hnd.2 hrun
          refine ⟨?_, fun sp hsp => ih2 sp (fun hh => hsp (List.mem_cons_of_mem _ hh)), ih3⟩
          intro sp hsp
          rcases List.mem_cons.mp hsp with heq | hmem
          · subst heq
            rw [hcontrib_none (by rintro ⟨a, b, h1, h2⟩; cases h1)]
            exact ih2 (s, p) hnd.1
          · exact ih1 sp hmem
        | some a =>
          cases pv with
          | none =>
            simp only [corr_pairs, hsig, hprot] at hrun
            obtain ⟨ih1, ih2, ih3⟩ := ih results r hnd.2 hrun
            refine ⟨?_, fun sp hsp => ih2 sp (fun hh => hsp (List.mem_cons_of_mem _ hh)), ih3⟩
            intro sp hsp
            rcases List.mem_cons.mp hsp with heq | hmem
            · subst heq
              rw [hcontrib_none (by rintro ⟨a', b, h1, h2⟩; cases h2)]
              exact ih2 (s, p) hnd.1
            · exact ih1 sp hmem
          | some b =>
            cases hres : dget results cancer with
            | none =>
              simp only [corr_pairs, hsig, hprot, hres] at hrun
              cases hrun
            | some cpairs =>
              cases hpair : dget cpairs (s, p) with
              | none =>
                simp only [corr_pairs, hsig, hprot, hres, hpair] at hrun
                cases hrun
              | some pair =>
                simp only [corr_pairs, hsig, hprot, hres, hpair] at hrun
                obtain ⟨ih1, ih2, ih3⟩ := ih _ r hnd.2 hrun
                have hslot0 : slot results cancer (s, p) = some pair := by
                  unfold slot
                  rw [hres, Option.some_bind, hpair]
                have hcon : entry_contrib sigsv protv s p = some (a, b) := by
                  simp only [entry_contrib, hsig, hprot]
                refine ⟨?_, ?_, ?_⟩
                · intro sp hsp
                  rcases List.mem_cons.mp hsp with heq | hmem
                  · subst heq
                    rw [ih2 (s, p) hnd.1, slot_dinsert_same results cancer cpairs hres,
                      if_pos rfl, hcon, hslot0]
                    rfl
                  · have hne : sp ≠ (s, p) := fun hh => hnd.1 (hh ▸ hmem)
                    rw [ih1 sp hmem, slot_dinsert_same results cancer cpairs hres,
                      if_neg hne]
                · intro sp hsp
                  have hne : sp ≠ (s, p) := fun hh => hsp (hh ▸ List.mem_cons_self _ _)
                  rw [ih2 sp (fun hh => hsp (List.mem_cons_of_mem _ hh)),
                    slot_dinsert_same results cancer cpairs hres, if_neg hne]
                · intro c' hc'
                  rw [ih3 c' hc', dget_dinsert_ne _ _ _ _ hc']

/-- Contributions of a single sample's cancer-entry list to the `(c, s, p)`
series. -/
def centry_contribs (centries : List (Str × JoinEntry)) (c s p : Str) :
    List (ℚ × ℚ) :=
  centries.filterMap (fun ce =>
    if ce.1 = c then entry_contrib ce.2.sigs ce.2.proteins s p else none)

theorem contribs_cons (se : Str × List (Str × JoinEntry)) (rest : JoinMap)
    (c s p : Str) :
    contribs (se :: rest) c s p = centry_contribs se.2 c s p ++ contribs rest c s p := by
  simp only [contribs, centry_contribs, List.flatMap_cons]

theorem product2_nodup (sns pns : List Str) (h1 : sns.Nodup) (h2 : pns.Nodup) :
    (product2 sns pns).Nodup := by
  have h : product2 sns pns = sns ×ˢ pns := rfl
  rw [h]
  exact h1.product h2

/-- Effect of the cancer-entry loop of one joined sample on every tracked
slot. -/
theorem corr_cancers_slot (sns pns : List Str) :
    ∀ (centries : List (Str × JoinEntry)) results r,
      (product2 sns pns).Nodup →
      corr_cancers sns pns results centries = .ok r →
      ∀ c s p, s ∈ sns → p ∈ pns →
        slot r c (s, p) = (slot results c (s, p)).map
          (fun pr => ⟨pr.sigs ++ (centry_contribs centries c s p).map Prod.fst,
                      pr.proteins ++ (centry_contribs centries c s p).map Prod.snd⟩) := by
  intro centries
  induction centries with
  | nil =>
    intro results r _ hrun c s p _ _
    cases hrun
    cases hsl : slot results c (s, p) with
    | none => rfl
    | some pr => simp [centry_contribs]
  | cons ce0 rest ih =>
    intro results r hnodup hrun c s p hs hp
    obtain ⟨c0, entry⟩ := ce0
    cases hres : dget results c0 with
    | none =>
      simp only [corr_cancers, hres] at hrun
      cases hrun
    | some cpairs0 =>
      cases hcp : corr_pairs c0 entry.sigs entry.proteins results (product2 sns pns) with
      | error e =>
        simp only [corr_cancers, hres, hcp] at hrun
        cases hrun
      | ok r1 =>
        simp only [corr_cancers, hres, hcp] at hrun
        obtain ⟨hp1, hp2, hp3⟩ :=
          corr_pairs_slot c0 entry.sigs entry.proteins (product2 sns pns)
            results r1 hnodup hcp
        rw [ih r1 r hnodup hrun c s p hs hp]
        by_cases hc : c = c0
        · subst hc
          rw [hp1 (s, p) ((mem_product2 sns pns s p).mpr ⟨hs, hp⟩)]
          cases hec : entry_contrib entry.sigs entry.proteins s p with
          | none =>
            have hhead : centry_contribs ((c, entry) :: rest) c s p
                = centry_contribs rest c s p := by
              simp only [centry_contribs]
              rw [List.filterMap_cons_none]
              simp only [if_pos rfl]
              exact hec
            rw [hhead]
          | some ab =>
            have hhead : centry_contribs ((c, entry) :: rest) c s p
                = ab :: centry_contribs rest c s p := by
              simp only [centry_contribs]
              rw [List.filterMap_cons_some]
              simp only [if_pos rfl]
              exact hec
            rw [hhead]
            cases hsl : slot results c (s, p) with
            | none => rfl
            | some pr => simp [List.append_assoc]
        · have hslot1 : slot r1 c (s, p) = slot results c (s, p) := by
            unfold slot
            rw [hp3 c hc]
          have hhead : centry_contribs ((c0, entry) :: rest) c s p
              = centry_contribs rest c s p := by
            simp only [centry_contribs]
            rw [List.filterMap_cons_none]
            rw [if_neg (fun hh => hc hh.symm)]
          rw [hhead, hslot1]

/-- Effect of the whole sample loop on every tracked slot: each slot collects
the projections of its contribution list. -/
theorem corr_samples_slot (sns pns : List Str) :
    ∀ (jd : JoinMap) results r,
      (product2 sns pns).Nodup →
      corr_samples sns pns results jd = .ok r →
      ∀ c s p, s ∈ sns → p ∈ pns →
        slot r c (s, p) = (slot results c (s, p)).map
          (fun pr => ⟨pr.sigs ++ (contribs jd c s p).map Prod.fst,
                      pr.proteins ++ (contribs jd c s p).map Prod.snd⟩) := by
  intro jd
  induction jd with
  | nil =>
    intro results r _ hrun c s p _ _
    cases hrun
    cases hsl : slot results c (s, p) with
    | none => rfl
    | some pr => simp [contribs]
  | cons se0 rest ih =>
    intro results r hnodup hrun c s p hs hp
    obtain ⟨sample, centries⟩ := se0
    cases hcc : corr_cancers sns pns results centries with
    | error e =>
      simp only [corr_samples, hcc] at hrun
      cases hrun
    | ok r1 =>
      simp only [corr_samples, hcc] at hrun
      rw [ih r1 r hnodup hrun c s p hs hp,
        corr_cancers_slot sns pns centries results r1 hnodup hcc c s p hs hp,
        contribs_cons]
      cases hsl : slot results c (s, p) with
      | none => rfl
      | some pr => simp [List.append_assoc]

/-- Claim C2: for every joined entry and `(signature, protein)` pair, a value
pair is appended only when both sides are present, and the two series are the
two projections of one list of per-sample contribution pairs — so index `i` of
the signature series and index `i` of the protein series come from the same
sample. -/
theorem get_correlations_pairing (cts sns pns : List Str) (jd : JoinMap)
    (r : CorrMap) (hs_nodup : sns.Nodup) (hp_nodup : pns.Nodup)
    (hrun : get_correlations cts sns pns jd = .ok r)
    (c s p : Str) (hc : c ∈ cts) (hs : s ∈ sns) (hp : p ∈ pns) :
    ∃ pr : SeriesPair, slot r c (s, p) = some pr ∧
      pr.sigs = (contribs jd c s p).map Prod.fst ∧
      pr.proteins = (contribs jd c s p).map Prod.snd := by
  have hnodup := product2_nodup sns pns hs_nodup hp_nodup
  have h := corr_samples_slot sns pns jd _ r hnodup hrun c s p hs hp
  rw [slot_init cts sns pns c s p hc hs hp] at h
  exact ⟨⟨(contribs jd c s p).map Prod.fst, (contribs jd c s p).map Prod.snd⟩,
    h, rfl, rfl⟩

/-- Witness cancer type. -/
def cW : Str := "BRCA".toList

/-- Witness signature name. -/
def sigW : Str := "SBS1".toList

/-- Witness protein name. -/
def protW : Str := "P1".toList

/-- A one-sample joined record for the series-builder witnesses. -/
def jdW : JoinMap :=
  [("TCGA-AA-AAAA".toList, [(cW, ⟨[(sigW, some 5)], [(protW, some 7)]⟩)])]

/-- The series the builder produces from `jdW`. -/
def corrW : CorrMap := [(cW, [((sigW, protW), ⟨[5], [7]⟩)])]

theorem get_correlations_pairing_witness :
    ∃ pr : SeriesPair, slot corrW cW (sigW, protW) = some pr ∧
      pr.sigs = (contribs jdW cW sigW protW).map Prod.fst ∧
      pr.proteins = (contribs jdW cW sigW protW).map Prod.snd :=
  get_correlations_pairing [cW] [sigW] [protW] jdW corrW (by decide) (by decide)
    rfl cW sigW protW (by decide) (by decide) (by decide)

/-- The invariant behind the cross-product claim: every combination has a
slot, its two series have equal length, and a combination with no contribution
still holds two empty series. -/
def cross_inv (cts sns pns : List Str) (jd : JoinMap) (results : CorrMap) : Prop :=
  ∀ c ∈ cts, ∃ cpairs, dget results c = some cpairs ∧
    ∀ s ∈ sns, ∀ p ∈ pns, ∃ pr, dget cpairs (s, p) = some pr ∧
      pr.sigs.length = pr.proteins.length ∧
      (contribs jd c s p = [] → pr = ⟨[], []⟩)

/-- `(c0, entry)` never contributes to a combination whose contribution list
over the full joined record is empty. -/
def contrib_covered (jd : JoinMap) (c0 : Str) (entry : JoinEntry) : Prop :=
  ∀ s p ab, entry_contrib entry.sigs entry.proteins s p = some ab →
    contribs jd c0 s p ≠ []

theorem contrib_covered_of_mem (jd : JoinMap) (se : Str × List (Str × JoinEntry))
    (hse : se ∈ jd) (ce : Str × JoinEntry) (hce : ce ∈ se.2) :
    contrib_covered jd ce.1 ce.2 := by
  intro s p ab hab hemp
  have hmem : ab ∈ contribs jd ce.1 s p := by
    refine List.mem_flatMap.mpr ⟨se, hse, ?_⟩
    refine List.mem_filterMap.mpr ⟨ce, hce, ?_⟩
    rw [if_pos rfl, hab]
  rw [hemp] at hmem
  cases hmem

theorem cross_inv_init (cts sns pns : List Str) (jd : JoinMap) :
    cross_inv cts sns pns jd (init_results cts sns pns) := by
  intro c hc
  refine ⟨init_pairs sns pns, by rw [dget_init_results, if_pos hc], ?_⟩
  intro s hs p hp
  refine ⟨⟨[], []⟩, ?_, rfl, fun _ => rfl⟩
  rw [dget_init_pairs, if_pos ((mem_product2 sns pns s p).mpr ⟨hs, hp⟩)]

theorem corr_pairs_inv (cts sns pns : List Str) (jd : JoinMap) (c0 : Str)
    (entry : JoinEntry) (hcov : contrib_covered jd c0 entry) :
    ∀ (l : List (Str × Str)) results r,
      cross_inv cts sns pns jd results →
      corr_pairs c0 entry.sigs entry.proteins results l = .ok r →
      cross_inv cts sns pns jd r := by
  intro l
  induction l with
  | nil =>
    intro results r hinv hrun
    cases hrun
    exact hinv
  | cons sp0 rest ih =>
    intro results r hinv hrun
    obtain ⟨s, p⟩ := sp0
    cases hsig : dget entry.sigs s with
    | none =>
      simp only [corr_pairs, hsig] at hrun
      cases hrun
    | some sv =>
      cases hprot : dget entry.proteins p with
      | none =>
        simp only [corr_pairs, hsig, hprot] at hrun
        cases hrun
      | some pv =>
        cases sv with
        | none =>
          simp only [corr_pairs, hsig, hprot] at hrun
          exact ih results r hinv hrun
        | some a =>
          cases pv with
          | none =>
            simp only [corr_pairs, hsig, hprot] at hrun
            exact ih results r hinv hrun
          | some b =>
            cases hres : dget results c0 with
            | none =>
              simp only [corr_pairs, hsig, hprot, hres] at hrun
              cases hrun
            | some cpairs =>
              cases hpair : dget cpairs (s, p) with
              | none =>
                simp only [corr_pairs, hsig, hprot, hres, hpair] at hrun
                cases hrun
              | some pair =>
                simp only [corr_pairs, hsig, hprot, hres, hpair] at hrun
                refine ih _ r ?_ hrun
                intro c hc
                by_cases hcc : c = c0
                · subst hcc
                  obtain ⟨cp0, hcp0, H⟩ := hinv c hc
                  rw [hres] at hcp0
                  have heq : cp0 = cpairs := (Option.some.inj hcp0).symm
                  rw [heq] at H
                  refine ⟨dinsert cpairs (s, p) ⟨pair.sigs ++ [a], pair.proteins ++ [b]⟩,
                    dget_dinsert_self _ _ _, ?_⟩
                  intro s' hs' p' hp'
                  by_cases hsp : (s', p') = (s, p)
                  · injection hsp with h1 h2
                    rw [h1] at hs'
                    rw [h2] at hp'
                    rw [h1, h2]
                    obtain ⟨pr, hpr, hlen, _⟩ := H s hs' p hp'
                    rw [hpair] at hpr
                    have hpe : pair = pr := Option.some.inj hpr
                    refine ⟨⟨pair.sigs ++ [a], pair.proteins ++ [b]⟩,
                      dget_dinsert_self _ _ _, by simp [hpe, hlen], ?_⟩
                    intro hemp
                    have hcon : entry_contrib entry.sigs entry.proteins s p
                        = some (a, b) := by
                      simp only [entry_contrib, hsig, hprot]
                    exact absurd hemp (hcov s p (a, b) hcon)
                  · obtain ⟨pr, hpr, hlen, hemp⟩ := H s' hs' p' hp'
                    exact ⟨pr, by rw [dget_dinsert_ne _ _ _ _ hsp]; exact hpr,
                      hlen, hemp⟩
                · obtain ⟨cp0, hcp0, H⟩ := hinv c hc
                  exact ⟨cp0, by rw [dget_dinsert_ne _ _ _ _ hcc]; exact hcp0, H⟩

theorem corr_cancers_inv (cts sns pns : List Str) (jd : JoinMap) :
    ∀ (centries : List (Str × JoinEntry)) results r,
      (∀ ce ∈ centries, contrib_covered jd ce.1 ce.2) →
      cross_inv cts sns pns jd results →
      corr_cancers sns pns results centries = .ok r →
      cross_inv cts sns pns jd r := by
  intro centries
  induction centries with
  | nil =>
    intro results r _ hinv hrun
    cases hrun
    exact hinv
  | cons ce0 rest ih =>
    intro results r hcov hinv hrun
    obtain ⟨c0, entry⟩ := ce0
    cases hres : dget results c0 with
    | none =>
      simp only [corr_cancers, hres] at hrun
      cases hrun
    | some cpairs0 =>
      cases hcp : corr_pairs c0 entry.sigs entry.proteins results (product2 sns pns) with
      | error e =>
        simp only [corr_cancers, hres, hcp] at hrun
        cases hrun
      | ok r1 =>
        simp only [corr_cancers, hres, hcp] at hrun
        have hinv1 := corr_pairs_inv cts sns pns jd c0 entry
          (hcov (c0, entry) (List.mem_cons_self _ _)) (product2 sns pns)
          results r1 hinv hcp
        exact ih r1 r (fun ce hce => hcov ce (List.mem_cons_of_mem _ hce)) hinv1 hrun

theorem corr_samples_inv (cts sns pns : List Str) (jd : JoinMap) :
    ∀ (l : JoinMap) results r,
      (∀ se ∈ l, ∀ ce ∈ se.2, contrib_covered jd ce.1 ce.2) →
      cross_inv cts sns pns jd results →
      corr_samples sns pns results l = .ok r →
      cross_inv cts sns pns jd r := by
  intro l
  induction l with
  | nil =>
    intro results r _ hinv hrun
    cases hrun
    exact hinv
  | cons se0 rest ih =>
    intro results r hcov hinv hrun
    obtain ⟨sample, centries⟩ := se0
    cases hcc : corr_cancers sns pns results centries with
    | error e =>
      simp only [corr_samples, hcc] at hrun
      cases hrun
    | ok r1 =>
      simp only [corr_samples, hcc] at hrun
      have hinv1 := corr_cancers_inv cts sns pns jd centries results r1
        (fun ce hce => hcov (sample, centries) (List.mem_cons_self _ _) ce hce)
        hinv hcc
      exact ih r1 r (fun se hse => hcov se (List.mem_cons_of_mem _ hse)) hinv1 hrun

/-- Claim C1: whenever the series builder completes, its output has an entry
for every `(cancer type, signature, protein)` combination in the full cross
product of the three name lists, each entry holds two series of equal length,
and a combination with no contributing sample holds two empty series. -/
theorem get_correlations_cross (cts sns pns : List Str) (jd : JoinMap)
    (r : CorrMap) (hrun : get_correlations cts sns pns jd = .ok r) :
    ∀ c ∈ cts, ∃ cpairs, dget r c = some cpairs ∧
      ∀ s ∈ sns, ∀ p ∈ pns, ∃ pr, dget cpairs (s, p) = some pr ∧
        pr.sigs.length = pr.proteins.length ∧
        (contribs jd c s p = [] → pr = ⟨[], []⟩) :=
  corr_samples_inv cts sns pns jd jd
    (init_results cts sns pns) r
    (fun se hse ce hce => contrib_covered_of_mem jd se hse ce hce)
    (cross_inv_init cts sns pns jd) hrun

theorem get_correlations_cross_witness :
    ∃ cpairs, dget corrW cW = some cpairs ∧
      ∀ s ∈ [sigW], ∀ p ∈ [protW], ∃ pr, dget cpairs (s, p) = some pr ∧
        pr.sigs.length = pr.proteins.length ∧
        (contribs jdW cW s p = [] → pr = ⟨[], []⟩) :=
  get_correlations_cross [cW] [sigW] [protW] jdW corrW rfl cW
    (List.mem_cons_self _ _)

/-! ### The main pipeline (`main`) -/

/-- Lexicographic string comparison (Python `sorted` order on strings). -/
def strLe : Str → Str → Bool
  | [], _ => true
  | _ :: _, [] => false
  | c1 :: r1, c2 :: r2 => if c1 = c2 then strLe r1 r2 else decide (c1 < c2)

/-- Insert into a sorted list of strings. -/
def insortStr (x : Str) : List Str → List Str
  | [] => [x]
  | y :: rest => if strLe x y then x :: y :: rest else y :: insortStr x rest

/-- `sorted(...)` on a list of strings (insertion sort). -/
def sortStrs (l : List Str) : List Str := l.foldr insortStr []

/-- The data pipeline of `main` after argument parsing: load RPPA, compute the
per-sample cancer-type statistic, load signatures, join on sample, and build
the correlation series with `sig_names = sorted(sigs_associations.keys())`. -/
def main_run (protein_names rppa_cancer_types : List Str)
    (rppa_rows : List RppaRow) (sig_rows : List SigRow) : Except Err CorrMap :=
  match read_rppa protein_names rppa_rows with
  | .error e => .error e
  | .ok rppa =>
      match cancer_types_per_sample rppa with
      | .error e => .error e
      | .ok _ =>
          match read_sigs sig_rows with
          | .error e => .error e
          | .ok (sigs_associations, sigs) =>
              match join_on_sample rppa sigs with
              | .error e => .error e
              | .ok join_data =>
                  get_correlations rppa_cancer_types
                    (sortStrs (sigs_associations.map Prod.fst))
                    protein_names join_data

/-- Claim C10: an RPPA input with a header but zero data rows loads to the
empty nested map; `cancer_types_per_sample` then takes `min`/`max` of an empty
list, raising an unhandled `ValueError`, so the run crashes instead of
completing or exiting with the `BadInput` status. -/
theorem main_empty_rppa_crash (protein_names rppa_cancer_types : List Str)
    (sig_rows : List SigRow) :
    read_rppa protein_names [] = .ok [] ∧
    cancer_types_per_sample [] = .error .ValueError ∧
    main_run protein_names rppa_cancer_types [] sig_rows = .error .ValueError ∧
    Err.ValueError ≠ Err.BadInput :=
  ⟨rfl, rfl, rfl, by decide⟩

/-- Sample with a row for only one signature. -/
def sampleA : Str := "TCGA-AA-AAAA".toList

/-- Sample with rows for both signatures. -/
def sampleB : Str := "TCGA-BB-BBBB".toList

/-- Signature rows: sample A lacks a row for `SBS2`. -/
def sigRowsK : List SigRow :=
  [⟨sampleA, "SBS1".toList, "Aging".toList, some 1⟩,
    ⟨sampleB, "SBS1".toList, "Aging".toList, some 2⟩,
    ⟨sampleB, "SBS2".toList, "Smoking".toList, some 3⟩]

/-- RPPA rows: both samples are `Primary` under one cancer type. -/
def rppaRowsK : List RppaRow :=
  [⟨"TCGA-AA-AAAA-01A".toList, cW, primary, fun _ => some 10⟩,
    ⟨"TCGA-BB-BBBB-01A".toList, cW, primary, fun _ => some 20⟩]

/-- The association table the signature loader builds from `sigRowsK`. -/
def assocK : AssocMap :=
  [("SBS1".toList, "Aging".toList), ("SBS2".toList, "Smoking".toList)]

/-- The per-sample signature map built from `sigRowsK`. -/
def sigsK : SigMap :=
  [(sampleA, [("SBS1".toList, some 1)]),
    (sampleB, [("SBS1".toList, some 2), ("SBS2".toList, some 3)])]

/-- The nested RPPA map built from `rppaRowsK`. -/
def rppaK : RppaMap :=
  [(sampleA, [(cW, [(primary, [(protW, some 10)])])]),
    (sampleB, [(cW, [(primary, [(protW, some 20)])])])]

/-- The joined record: sample A's copied signature map has no `SBS2` key. -/
def jdK : JoinMap :=
  [(sampleA, [(cW, ⟨[("SBS1".toList, some 1)], [(protW, some 10)]⟩)]),
    (sampleB, [(cW,
      ⟨[("SBS1".toList, some 2), ("SBS2".toList, some 3)], [(protW, some 20)]⟩)])]

/-- Claim C9: the series builder's `this_sigs[s]` is unguarded dict indexing.
The joiner copies only the signatures actually recorded for each sample while
the name list covers every signature seen in the file, so an input in which
some sample lacks a row for some signature drives `get_correlations` (and the
whole pipeline) into an unhandled `KeyError` — not a `BadInput` exit, not a
stored missing value. -/
theorem get_correlations_keyerror :
    read_sigs sigRowsK = .ok (assocK, sigsK) ∧
    read_rppa [protW] rppaRowsK = .ok rppaK ∧
    join_on_sample rppaK sigsK = .ok jdK ∧
    sortStrs (assocK.map Prod.fst) = ["SBS1".toList, "SBS2".toList] ∧
    get_correlations [cW] (sortStrs (assocK.map Prod.fst)) [protW] jdK
      = .error .KeyError ∧
    main_run [protW] [cW] rppaRowsK sigRowsK = .error .KeyError :=
  ⟨rfl, rfl, rfl, rfl, rfl, rfl⟩
